import Mathlib

/-!
Verification of the Copilot localization translator core against its
natural-language specification.

The Python source is shallowly embedded: strings are Lean `String`s
(manipulated through their `List Char` data), Python `dict`s are ordered
association lists with insert-or-replace semantics, Python `float` scores
are modelled as exact rationals, the regular expressions of
`localization_parser.py` and `translation_service.py` are hand-compiled to
total scanning functions with the same match semantics, and `hashlib.md5`
is implemented in full (RFC 1321) over `Nat` with explicit `% 2 ^ 32`
masking.  Character case functions model the ASCII fragment of Python's
`str.lower`/`str.upper`/`str.capitalize`, which is exact on the ASCII key
material this program manipulates.
-/

set_option maxRecDepth 10000

namespace CopilotTranslator

/-- The apostrophe character (code 39), written via `Char.ofNat`. -/
def aposChar : Char := Char.ofNat 39

/-- The apostrophe as a one-character string; authoring keys such as
`'dialog(topic.X).Card.1.text` begin with it. -/
def apos : String := String.mk [aposChar]

/-- Python `pat in s` substring test, on character lists. -/
def hasSubstr : List Char → List Char → Bool
  | [], p => p.isEmpty
  | c :: t, p => p.isPrefixOf (c :: t) || hasSubstr t p

/-- Python `pat in s` substring test on strings. -/
def strContains (s pat : String) : Bool := hasSubstr s.data pat.data

/-- Python `s.endswith(pat)`. -/
def strEndsWith (s pat : String) : Bool := pat.data.reverse.isPrefixOf s.data.reverse

/-- Python `s.startswith(pat)`. -/
def strStartsWith (s pat : String) : Bool := pat.data.isPrefixOf s.data

/-- Python `s.lower()` (ASCII fragment). -/
def lowerStr (s : String) : String := String.mk (s.data.map Char.toLower)

/-- Python `s.upper()` (ASCII fragment). -/
def upperStr (s : String) : String := String.mk (s.data.map Char.toUpper)

/-- Python whitespace characters recognised by `str.split()` / `str.strip()`. -/
def isWsChar (c : Char) : Bool :=
  c = ' ' || c = Char.ofNat 9 || c = Char.ofNat 10 || c = Char.ofNat 11 ||
  c = Char.ofNat 12 || c = Char.ofNat 13

/-- Python `s.strip()` with no arguments (strip surrounding whitespace). -/
def pyStrip (s : String) : String :=
  String.mk (((s.data.dropWhile isWsChar).reverse.dropWhile isWsChar).reverse)

/-- Python `s.split()`: split on runs of whitespace, discarding empty pieces.
The accumulator holds the current word reversed. -/
def splitWsAux : List Char → List Char → List (List Char)
  | [], acc => if acc = [] then [] else [acc.reverse]
  | c :: rest, acc =>
    if isWsChar c then
      (if acc = [] then splitWsAux rest [] else acc.reverse :: splitWsAux rest [])
    else splitWsAux rest (c :: acc)

/-- Python `s.split()` on a character list. -/
def splitWs (l : List Char) : List (List Char) := splitWsAux l []

/-- Python `sep.join(words)` for a one-character separator. -/
def joinWith (sep : Char) : List (List Char) → List Char
  | [] => []
  | [w] => w
  | w :: ws => w ++ sep :: joinWith sep ws

/- ### MD5 (`hashlib.md5(...).hexdigest()`), RFC 1321 over `Nat` -/

/-- UTF-8 encoding of one character, as byte values. -/
def utf8Char (c : Char) : List Nat :=
  let n := c.toNat
  if n < 0x80 then [n]
  else if n < 0x800 then
    [0xC0 ||| (n >>> 6), 0x80 ||| (n &&& 0x3F)]
  else if n < 0x10000 then
    [0xE0 ||| (n >>> 12), 0x80 ||| ((n >>> 6) &&& 0x3F), 0x80 ||| (n &&& 0x3F)]
  else
    [0xF0 ||| (n >>> 18), 0x80 ||| ((n >>> 12) &&& 0x3F),
     0x80 ||| ((n >>> 6) &&& 0x3F), 0x80 ||| (n &&& 0x3F)]

/-- Python `s.encode('utf-8')` as a byte list. -/
def utf8Bytes (s : String) : List Nat := (s.data.map utf8Char).flatten

/-- The 64 MD5 sine-table constants `floor(2^32 * |sin(i+1)|)`. -/
def md5K : List Nat :=
  [0xd76aa478, 0xe8c7b756, 0x242070db, 0xc1bdceee,
   0xf57c0faf, 0x4787c62a, 0xa8304613, 0xfd469501,
   0x698098d8, 0x8b44f7af, 0xffff5bb1, 0x895cd7be,
   0x6b901122, 0xfd987193, 0xa679438e, 0x49b40821,
   0xf61e2562, 0xc040b340, 0x265e5a51, 0xe9b6c7aa,
   0xd62f105d, 0x02441453, 0xd8a1e681, 0xe7d3fbc8,
   0x21e1cde6, 0xc33707d6, 0xf4d50d87, 0x455a14ed,
   0xa9e3e905, 0xfcefa3f8, 0x676f02d9, 0x8d2a4c8a,
   0xfffa3942, 0x8771f681, 0x6d9d6122, 0xfde5380c,
   0xa4beea44, 0x4bdecfa9, 0xf6bb4b60, 0xbebfbc70,
   0x289b7ec6, 0xeaa127fa, 0xd4ef3085, 0x04881d05,
   0xd9d4d039, 0xe6db99e5, 0x1fa27cf8, 0xc4ac5665,
   0xf4292244, 0x432aff97, 0xab9423a7, 0xfc93a039,
   0x655b59c3, 0x8f0ccc92, 0xffeff47d, 0x85845dd1,
   0x6fa87e4f, 0xfe2ce6e0, 0xa3014314, 0x4e0811a1,
   0xf7537e82, 0xbd3af235, 0x2ad7d2bb, 0xeb86d391]

/-- The 64 per-round left-rotation amounts of MD5. -/
def md5S : List Nat :=
  [7, 12, 17, 22, 7, 12, 17, 22, 7, 12, 17, 22, 7, 12, 17, 22,
   5, 9, 14, 20, 5, 9, 14, 20, 5, 9, 14, 20, 5, 9, 14, 20,
   4, 11, 16, 23, 4, 11, 16, 23, 4, 11, 16, 23, 4, 11, 16, 23,
   6, 10, 15, 21, 6, 10, 15, 21, 6, 10, 15, 21, 6, 10, 15, 21]

/-- 32-bit complement. -/
def not32 (x : Nat) : Nat := x ^^^ 0xFFFFFFFF

/-- 32-bit left rotation. -/
def rotl32 (x s : Nat) : Nat := ((x <<< s) ||| (x >>> (32 - s))) % 2 ^ 32

/-- MD5 round mixing function and message index for round `i`. -/
def md5FG (i b c d : Nat) : Nat × Nat :=
  if i < 16 then ((b &&& c) ||| (not32 b &&& d), i)
  else if i < 32 then ((d &&& b) ||| (not32 d &&& c), (5 * i + 1) % 16)
  else if i < 48 then (b ^^^ c ^^^ d, (3 * i + 5) % 16)
  else (c ^^^ (b ||| not32 d), (7 * i) % 16)

/-- Little-endian 32-bit words of a 64-byte block. -/
def md5Words (block : List Nat) (g : Nat) : Nat :=
  block.getD (4 * g) 0 + block.getD (4 * g + 1) 0 * 256 +
  block.getD (4 * g + 2) 0 * 65536 + block.getD (4 * g + 3) 0 * 16777216

/-- One MD5 block: run the 64 rounds and add into the chaining state. -/
def md5Block (st : Nat × Nat × Nat × Nat) (block : List Nat) : Nat × Nat × Nat × Nat :=
  let rounds := (List.range 64).foldl
    (fun (s : Nat × Nat × Nat × Nat) i =>
      let (a, b, c, d) := s
      let (f, g) := md5FG i b c d
      let f2 := (f + a + md5K.getD i 0 + md5Words block g) % 2 ^ 32
      (d, (b + rotl32 f2 (md5S.getD i 0)) % 2 ^ 32, b, c))
    st
  ((st.1 + rounds.1) % 2 ^ 32,
   (st.2.1 + rounds.2.1) % 2 ^ 32,
   (st.2.2.1 + rounds.2.2.1) % 2 ^ 32,
   (st.2.2.2 + rounds.2.2.2) % 2 ^ 32)

/-- Split a byte list into 64-byte chunks. -/
def chunks64 : List Nat → List (List Nat)
  | [] => []
  | b :: rest => (b :: rest).take 64 :: chunks64 ((b :: rest).drop 64)
  termination_by l => l.length
  decreasing_by
    simp only [List.length_drop, List.length_cons]
    omega

/-- MD5 padding: `0x80`, zeros to 56 mod 64, then the 64-bit little-endian
bit length. -/
def md5Pad (msg : List Nat) : List Nat :=
  let len := msg.length
  let zeros := (119 - len % 64) % 64
  msg ++ [0x80] ++ List.replicate zeros 0 ++
    (List.range 8).map (fun i => ((8 * len) % 2 ^ 64) >>> (8 * i) % 2 ^ 64 &&& 0xFF)

/-- Lowercase hex digit for a value below 16. -/
def hexDigit (n : Nat) : Char :=
  if n < 10 then Char.ofNat (48 + n) else Char.ofNat (87 + n)

/-- Two lowercase hex digits of a byte. -/
def hexByte (n : Nat) : List Char := [hexDigit (n / 16 % 16), hexDigit (n % 16)]

/-- Little-endian byte decomposition of a 32-bit word. -/
def leBytes32 (x : Nat) : List Nat := [x % 256, x / 256 % 256, x / 65536 % 256, x / 16777216 % 256]

/-- `hashlib.md5(bytes).hexdigest()`. -/
def md5Hex (msg : List Nat) : String :=
  let st := (md5Pad msg |> chunks64).foldl md5Block (0x67452301, 0xefcdab89, 0x98badcfe, 0x10325476)
  String.mk (((leBytes32 st.1 ++ leBytes32 st.2.1 ++ leBytes32 st.2.2.1 ++ leBytes32 st.2.2.2).map hexByte).flatten)

/-- `hashlib.md5(s.encode('utf-8')).hexdigest()`. -/
def md5HexStr (s : String) : String := md5Hex (utf8Bytes s)

/- ### `translation_service.py` -/

/-- `TranslationService.get_cache_key`: md5 hex digest of
`f"{text}|{target_language}|{style}|{context}"`. -/
def get_cache_key (text target_language style context : String) : String :=
  md5HexStr (text ++ "|" ++ target_language ++ "|" ++ style ++ "|" ++ context)

/-- The pipe-joined content string that `get_cache_key` hashes. -/
def cacheContent (text target_language style context : String) : String :=
  text ++ "|" ++ target_language ++ "|" ++ style ++ "|" ++ context

/-- `re.findall(r'\{[^}]+\}', text)` compiled to a scanner.  The second
argument is `none` while outside a candidate match and `some acc` (inner
characters so far, reversed) after an opening brace; a brace with an empty
body is not a match and scanning resumes at the closing brace, exactly as
the regex engine advances after a failed start position. -/
def phScan : List Char → Option (List Char) → List String
  | [], _ => []
  | c :: rest, none =>
    if c = '{' then phScan rest (some []) else phScan rest none
  | c :: rest, some acc =>
    if c = '}' then
      if acc = [] then phScan (c :: rest).tail none
      else String.mk ('{' :: acc.reverse ++ ['}']) :: phScan rest none
    else phScan rest (some (c :: acc))

/-- `TranslationService._extract_placeholders`. -/
def extract_placeholders (text : String) : List String := phScan text.data none

/-- A validation warning; each constructor stands for the corresponding
f-string appended to `validation_result['warnings']`, carrying the data the
f-string interpolates. -/
inductive VWarning
  | placeholderMismatch (original translated : List String)
  | lengthRatio (ratio : ℚ)
  | unchanged
  deriving DecidableEq, Repr

/-- A validation error string of `validate_translation`. -/
inductive VError
  | empty
  | errorMessage
  deriving DecidableEq, Repr

/-- The `validation_result` dictionary.  Python floats are modelled as exact
rationals; every deduction here is a small decimal, and on the execution
paths the claims mention the double-precision results coincide with the
exact ones. -/
structure ValidationResult where
  is_valid : Bool
  warnings : List VWarning
  errors : List VError
  score : ℚ
  deriving DecidableEq, Repr

/-- The length ratio `len(translated) / len(original)` of
`validate_translation`, with the guard for an empty original. -/
def ratioQ (original translated : String) : ℚ :=
  if 0 < original.length then (translated.length : ℚ) / (original.length : ℚ) else 1

/-- The unusual-length-ratio condition `ratio > 3 or ratio < 0.3`. -/
def badRatio (original translated : String) : Prop :=
  3 < ratioQ original translated ∨ ratioQ original translated < 3/10

instance (original translated : String) : Decidable (badRatio original translated) := by
  unfold badRatio
  infer_instance

/-- `TranslationService.validate_translation`. -/
def validate_translation (original translated : String) : ValidationResult :=
  if pyStrip translated = "" then ⟨false, [], [VError.empty], 0⟩
  else if strStartsWith translated "[ERROR:" then ⟨false, [], [VError.errorMessage], 0⟩
  else
    let op := extract_placeholders original
    let tp := extract_placeholders translated
    let ws1 : List VWarning := if op ≠ tp then [VWarning.placeholderMismatch op tp] else []
    let sc1 : ℚ := if op ≠ tp then 1 - 2/10 else 1
    let ws2 := ws1 ++ (if badRatio original translated then
      [VWarning.lengthRatio (ratioQ original translated)] else [])
    let sc2 := sc1 - (if badRatio original translated then 1/10 else 0)
    let same := lowerStr original = lowerStr translated
    let ws3 := ws2 ++ (if same then [VWarning.unchanged] else [])
    let sc3 := sc2 - (if same then 3/10 else 0)
    ⟨true, ws3, [], max 0 sc3⟩

/-- `TranslationService._mock_translate`. -/
def mock_translate (text target_language style : String) : String :=
  (if style = "formal" then "[FORMAL]"
   else if style = "conversational" then "[CONV]"
   else if style = "chatbot" then "[BOT]"
   else "[TRANS]") ++ " " ++ text ++ " [" ++ upperStr target_language ++ "]"

/-- Python `dict` as an ordered association list: `d[k] = v` replaces in
place when the key is present and appends otherwise. -/
def dictInsert {α : Type} (d : List (String × α)) (k : String) (v : α) : List (String × α) :=
  if d.any (fun p => p.1 = k) then d.map (fun p => if p.1 = k then (k, v) else p)
  else d ++ [(k, v)]

/-- Python `d.get(k)` / `k in d` lookup on the association-list dict. -/
def dictGet? {α : Type} (d : List (String × α)) (k : String) : Option α :=
  (d.find? (fun p => p.1 = k)).map (fun p => p.2)

/-- The mutable state of a `TranslationService`: the in-memory translation
cache and the optional Azure backend.  The backend is the external
collaborator `self.client.chat.completions.create`, determinised as a
function from the attempt number to either the response content or the
exception message; `None` models unconfigured credentials. -/
structure Service where
  cache : List (String × String)
  client : Option (Nat → Except String String)

/-- Post-processing of a successful backend response: `.strip()` then
removal of one layer of surrounding matching quotes (`s[1:-1]`). -/
def processResponse (s : String) : String :=
  let t := pyStrip s
  let dq : Char := Char.ofNat 34
  if (strStartsWith t (String.mk [dq]) ∧ strEndsWith t (String.mk [dq])) ∨
     (strStartsWith t apos ∧ strEndsWith t apos) then
    String.mk (t.data.drop 1).dropLast
  else t

/-- Outcome of one `translate` call: the returned string, the service state
afterwards, and the `time.sleep` durations performed, in order. -/
structure TransResult where
  result : String
  svc : Service
  sleeps : List Nat

/-- The retry loop `for attempt in range(max_retries)` of
`TranslationService.translate`, recursing on the remaining attempts.
`remaining = 0` with no prior success corresponds to falling off the loop
(`max_retries` was 0), returning the trailing sentinel. -/
def attemptLoop (backend : Nat → Except String String) (key : String) (svc : Service) :
    Nat → Nat → TransResult
  | _, 0 => ⟨"[ERROR: Translation failed after retries]", svc, []⟩
  | attempt, remaining + 1 =>
    match backend attempt with
    | Except.ok resp =>
      let t := processResponse resp
      ⟨t, { svc with cache := dictInsert svc.cache key t }, []⟩
    | Except.error e =>
      if remaining = 0 then
        ⟨"[ERROR: Translation failed: " ++ e ++ "]", svc, []⟩
      else
        let out := attemptLoop backend key svc (attempt + 1) remaining
        ⟨out.result, out.svc, 2 ^ attempt :: out.sleeps⟩

/-- `TranslationService.translate`: cache lookup, mock fallback when no
client is configured, otherwise the retry loop. -/
def translate (svc : Service) (text target_language : String) (style : String)
    (context : String) (max_retries : Nat) : TransResult :=
  let key := get_cache_key text target_language style context
  match dictGet? svc.cache key with
  | some cached => ⟨cached, svc, []⟩
  | none =>
    match svc.client with
    | none => ⟨mock_translate text target_language style, svc, []⟩
    | some backend => attemptLoop backend key svc 0 max_retries

/-- The loop body of `TranslationService.translate_batch` over the zipped
`(text, context)` pairs, collecting results and the
`progress_callback(i + 1, total, text, translated)` invocations. -/
def batchRun (svc : Service) (pairs : List (String × String)) (target_language style : String)
    (i total : Nat) : List String × List (Nat × Nat × String × String) × Service :=
  match pairs with
  | [] => ([], [], svc)
  | (t, c) :: rest =>
    let r := translate svc t target_language style c 3
    let out := batchRun r.svc rest target_language style (i + 1) total
    (r.result :: out.1, (i + 1, total, t, r.result) :: out.2.1, out.2.2)

/-- `TranslationService.translate_batch`: an omitted `contexts` becomes
`[''] * len(texts)`; the loop runs over `zip(texts, contexts)`. -/
def translate_batch (svc : Service) (texts : List String) (target_language style : String)
    (contexts : Option (List String)) : List String × List (Nat × Nat × String × String) × Service :=
  let ctxs := match contexts with
    | none => List.replicate texts.length ""
    | some cs => cs
  batchRun svc (texts.zip ctxs) target_language style 0 texts.length

/- ### `localization_parser.py`: hand-compiled regular expressions -/

/-- Characters allowed inside the capture `[^'\.]+` of the topic patterns:
anything except a period or an apostrophe. -/
def notDotApos (c : Char) : Bool := c != '.' && c != aposChar

/-- Generic `re.search` driver: try a match at every start position, left to
right, returning the first capture. -/
def reSearch (tryAt : List Char → Option (List Char)) : List Char → Option (List Char)
  | [] => tryAt []
  | c :: rest =>
    match tryAt (c :: rest) with
    | some cap => some cap
    | none => reSearch tryAt rest

/-- Match of `topic\.([^'\.]+)` anchored at the current position: the
literal `topic.` then a maximal nonempty run of non-period non-apostrophe
characters (greedy `+` with no following pattern element). -/
def p1At : List Char → Option (List Char)
  | 't' :: 'o' :: 'p' :: 'i' :: 'c' :: '.' :: rest =>
    let cap := rest.takeWhile notDotApos
    if cap = [] then none else some cap
  | _ => none

/-- Match of `dialog\([^.]*\.topic\.([^'\.]+)\)` anchored at the current
position.  `[^.]*` cannot absorb a period, so it is forced to the run up to
the first period, which must start `.topic.`; the greedy capture backtracks
until the next character is `)`, i.e. it ends just before the last `)`
inside the run. -/
def p2At : List Char → Option (List Char)
  | 'd' :: 'i' :: 'a' :: 'l' :: 'o' :: 'g' :: '(' :: rest =>
    match rest.dropWhile (fun c => c != '.') with
    | '.' :: 't' :: 'o' :: 'p' :: 'i' :: 'c' :: '.' :: cs =>
      let r := cs.takeWhile notDotApos
      match r.reverse.dropWhile (fun c => c != ')') with
      | ')' :: revCap => if revCap = [] then none else some revCap.reverse
      | _ => none
    | _ => none
  | _ => none

/-- Match of `globalVariable\([^.]*\.component\.([^)]+)\)` anchored at the
current position: `[^.]*` is forced to the first period, `.component.` must
follow, and the capture is the nonempty run up to the `)` that must exist. -/
def p3At : List Char → Option (List Char)
  | 'g' :: 'l' :: 'o' :: 'b' :: 'a' :: 'l' :: 'V' :: 'a' :: 'r' :: 'i' :: 'a' :: 'b' :: 'l' :: 'e' :: '(' :: rest =>
    match rest.dropWhile (fun c => c != '.') with
    | '.' :: 'c' :: 'o' :: 'm' :: 'p' :: 'o' :: 'n' :: 'e' :: 'n' :: 't' :: '.' :: cs =>
      let r := cs.takeWhile (fun c => c != ')')
      if r = [] then none
      else
        match cs.dropWhile (fun c => c != ')') with
        | ')' :: _ => some r
        | _ => none
    | _ => none
  | _ => none

/-- Python `s.replace('_', ' ').replace('-', ' ')` from `extract_topic`. -/
def replUH (l : List Char) : List Char :=
  l.map (fun c => if c = '_' then ' ' else if c = '-' then ' ' else c)

/-- The regex character class `[a-z]`. -/
def isLowerAZ (c : Char) : Bool := 97 ≤ c.toNat && c.toNat ≤ 122

/-- The regex character class `[A-Z]`. -/
def isUpperAZ (c : Char) : Bool := 65 ≤ c.toNat && c.toNat ≤ 90

/-- `re.sub(r'([a-z])([A-Z])', r'\1 \2', topic)`: the scanner walks the
string; each non-overlapping two-character match is replaced by the pair
with a space inserted and scanning resumes after the consumed pair. -/
def camelSub : List Char → List Char
  | [] => []
  | [c] => [c]
  | a :: b :: rest =>
    if isLowerAZ a && isUpperAZ b then a :: ' ' :: b :: camelSub rest
    else a :: camelSub (b :: rest)

/-- The acronym list of `format_topic_name`. -/
def acronyms : List (List Char) := ["copilot".data, "ai".data, "ui".data, "api".data]

/-- Python `word.capitalize()` (ASCII): first character upper-cased, the
rest lower-cased. -/
def pyCapitalize : List Char → List Char
  | [] => []
  | c :: cs => Char.toUpper c :: cs.map Char.toLower

/-- The per-word branch of `format_topic_name`. -/
def formatWord (w : List Char) : List Char :=
  if acronyms.contains (w.map Char.toLower) then w.map Char.toUpper
  else if 1 < w.length then pyCapitalize w
  else w.map Char.toUpper

/-- `LocalizationParser.format_topic_name`. -/
def format_topic_name (t : List Char) : String :=
  String.mk (joinWith ' ' ((splitWs (camelSub t)).map formatWord))

/-- `LocalizationParser.extract_topic`: the three topic patterns in order,
then the global-variable fallback, then the unknown sentinel. -/
def extract_topic (key : String) : String :=
  match reSearch p1At key.data with
  | some cap => format_topic_name (replUH cap)
  | none =>
    match reSearch p2At key.data with
    | some cap => format_topic_name (replUH cap)
    | none =>
      match reSearch p3At key.data with
      | some cap => format_topic_name (replUH cap)
      | none =>
        if strContains key (apos ++ "globalVariable(") then "Global Variables"
        else "Unknown Topic"

/-- The camel-case rule as the specification words it: a space is inserted
between a lowercase letter and a following uppercase letter (pairwise,
without consuming the uppercase letter). -/
def insertCamelSpaces : List Char → List Char
  | [] => []
  | [c] => [c]
  | a :: b :: rest =>
    if isLowerAZ a && isUpperAZ b then a :: ' ' :: insertCamelSpaces (b :: rest)
    else a :: insertCamelSpaces (b :: rest)

/-- The per-word rule as the specification words it: known acronyms are
upper-cased, single-character words are upper-cased, every other word is
title-cased. -/
def specWord (w : List Char) : List Char :=
  if acronyms.contains (w.map Char.toLower) then w.map Char.toUpper
  else if w.length = 1 then w.map Char.toUpper
  else pyCapitalize w

/-- The whole captured-name cleanup as the specification words it:
underscores and hyphens become spaces, camelCase is split pairwise, then
each word is processed by `specWord`. -/
def specCleanup (cap : List Char) : String :=
  String.mk (joinWith ' ' ((splitWs (insertCamelSpaces (replUH cap))).map specWord))

/-- Topic extraction as the specification words it: same ordered patterns,
`specCleanup` on the capture, then the two fallbacks. -/
def specExtractTopic (key : String) : String :=
  match reSearch p1At key.data with
  | some cap => specCleanup cap
  | none =>
    match reSearch p2At key.data with
    | some cap => specCleanup cap
    | none =>
      match reSearch p3At key.data with
      | some cap => specCleanup cap
      | none =>
        if strContains key (apos ++ "globalVariable(") then "Global Variables"
        else "Unknown Topic"

/-- The component list of `extract_ui_component`, in source order. -/
def uiComponents : List String := ["Card", "Activity", "Prompt", "Entity", "Intent", "Dialog"]

/-- `LocalizationParser.extract_ui_component`. -/
def extract_ui_component (key : String) : String :=
  match uiComponents.find? (fun c => strContains key ("." ++ c ++ ".")) with
  | some c => c
  | none =>
    if strContains key (apos ++ "globalVariable(") then "GlobalVariable"
    else
      let lowered := lowerStr key
      if strContains lowered "knowledgesourcecomponent" ||
          strContains lowered "knowledge_source_component" then "KnowledgeSourceComponent"
      else if strContains lowered ".knowledgebase." || strContains lowered "knowledgebase(" ||
          strContains lowered ".knowledgesource." then "KnowledgeSource"
      else if strEndsWith key ".DisplayName" && strContains key (apos ++ "dialog(") &&
          !strContains key ".Entity." && !strContains key ".Card." &&
          !strContains key ".Activity." && !strContains key ".Prompt." then "DialogDisplayName"
      else "Unknown"

/-- UI-component extraction as the claim words it: six precedence rules,
first applicable wins. -/
def uiComponentSpec (key : String) : String :=
  if strContains key ".Card." then "Card"
  else if strContains key ".Activity." then "Activity"
  else if strContains key ".Prompt." then "Prompt"
  else if strContains key ".Entity." then "Entity"
  else if strContains key ".Intent." then "Intent"
  else if strContains key ".Dialog." then "Dialog"
  else if strContains key (apos ++ "globalVariable(") then "GlobalVariable"
  else if strContains (lowerStr key) "knowledgesourcecomponent" ||
      strContains (lowerStr key) "knowledge_source_component" then "KnowledgeSourceComponent"
  else if strContains (lowerStr key) ".knowledgebase." ||
      strContains (lowerStr key) "knowledgebase(" ||
      strContains (lowerStr key) ".knowledgesource." then "KnowledgeSource"
  else if strEndsWith key ".DisplayName" && strContains key (apos ++ "dialog(") &&
      !(strContains key ".Entity." || strContains key ".Card." ||
        strContains key ".Activity." || strContains key ".Prompt.") then "DialogDisplayName"
  else "Unknown"

/-- The element list of `extract_element_type`, in source order. -/
def uiElements : List String := ["text", "title", "DisplayName", "TriggerQueries", "Description"]

/-- `LocalizationParser.extract_element_type`. -/
def extract_element_type (key : String) : String :=
  match uiElements.find? (fun e => strEndsWith key ("." ++ e) || strContains key ("." ++ e ++ "[")) with
  | some e => e
  | none => "text"

/-- Match, anchored at the current position, of `<pre>` followed by the
capture `([^)]+)` and a closing `)` — the shape of the `action(...)` and
`trigger(...)` context patterns. -/
def parenAt (pre : List Char) (l : List Char) : Option (List Char) :=
  if pre.isPrefixOf l then
    let cs := l.drop pre.length
    let r := cs.takeWhile (fun c => c != ')')
    if r = [] then none
    else
      match cs.dropWhile (fun c => c != ')') with
      | ')' :: _ => some r
      | _ => none
  else none

/-- Match of `\.(Card|Activity|Prompt|Entity)\.` anchored at the current
position; alternatives are tried left to right. -/
def componentAt (l : List Char) : Option (List Char) :=
  match ["Card", "Activity", "Prompt", "Entity"].find?
      (fun c => ("." ++ c ++ ".").data.isPrefixOf l) with
  | some c => some c.data
  | none => none

/-- Match of `\.(text|title|DisplayName)` anchored at the current position. -/
def uiElementAt (l : List Char) : Option (List Char) :=
  match ["text", "title", "DisplayName"].find? (fun e => ("." ++ e).data.isPrefixOf l) with
  | some e => some e.data
  | none => none

/-- Match of `Intent\.(DisplayName|TriggerQueries)` anchored at the current
position. -/
def intentAt (l : List Char) : Option (List Char) :=
  if "Intent.".data.isPrefixOf l then
    match ["DisplayName", "TriggerQueries"].find? (fun e => e.data.isPrefixOf (l.drop 7)) with
    | some e => some e.data
    | none => none
  else none

/-- The `context` dictionary of `extract_context`: one optional entry per
fixed pattern, present exactly when the pattern matched. -/
structure ContextInfo where
  action_type : Option String
  trigger : Option String
  component : Option String
  ui_element : Option String
  intent : Option String
  deriving DecidableEq, Repr

/-- `LocalizationParser.extract_context`. -/
def extract_context (key : String) : ContextInfo :=
  ⟨(reSearch (parenAt "action(".data) key.data).map String.mk,
   (reSearch (parenAt "trigger(".data) key.data).map String.mk,
   (reSearch componentAt key.data).map String.mk,
   (reSearch uiElementAt key.data).map String.mk,
   (reSearch intentAt key.data).map String.mk⟩

/-- Python `sep.join(parts)` for a string separator. -/
def joinWithStr (sep : String) : List String → String
  | [] => ""
  | [w] => w
  | w :: ws => w ++ sep ++ joinWithStr sep ws

/-- `LocalizationParser.generate_description`. -/
def generate_description (key : String) : String :=
  let topic := extract_topic key
  let parts1 : List String := if topic ≠ "Unknown Topic" then ["Topic: " ++ topic] else []
  let comp := extract_ui_component key
  let parts2 := parts1 ++ (if comp ≠ "Unknown" then ["Component: " ++ comp] else [])
  let elem := extract_element_type key
  let parts3 := parts2 ++ (if elem ≠ "text" then ["Element: " ++ elem] else [])
  let parts4 := parts3 ++
    (match (extract_context key).action_type with
     | some a =>
       [if strStartsWith a "question_" then "Type: Question"
        else if strStartsWith a "sendActivity_" then "Type: Response"
        else if strStartsWith a "sendMessage_" then "Type: Message"
        else "Type: " ++ a]
     | none => [])
  if parts4 = [] then "General localization entry" else joinWithStr " | " parts4

/-- A classified record, the dictionary built by `parse_entry`. -/
structure ParsedEntry where
  text : String
  topic : String
  context : ContextInfo
  ui_component : String
  element_type : String
  description : String
  deriving DecidableEq, Repr

/-- `LocalizationParser.parse_entry`. -/
def parse_entry (key value : String) : ParsedEntry :=
  ⟨value, extract_topic key, extract_context key, extract_ui_component key,
   extract_element_type key, generate_description key⟩

/-- A JSON value as seen by `validate_structure` after `json.load`: either a
string or some non-string value (whose shape the validator never inspects).
JSON object keys are always strings, so the `isinstance(key, str)` branch of
the source can never fire and has no counterpart here. -/
inductive JVal
  | str (s : String)
  | nonString
  deriving DecidableEq, Repr

/-- An error entry of `validate_structure`; each constructor stands for the
corresponding f-string, carrying the interpolated key. -/
inductive SErr
  | valueNotString (key : String)
  | badFormat (key : String)
  | truncMarker
  deriving DecidableEq, Repr

/-- The root-marker test of `validate_structure`: the literal substrings
`'dialog(`, `'topic(` and `'globalVariable(`, each beginning with an
apostrophe. -/
def keyHasRootMarker (key : String) : Bool :=
  strContains key (apos ++ "dialog(") || strContains key (apos ++ "topic(") ||
  strContains key (apos ++ "globalVariable(")

/-- The error list accumulated by the entry loop of `validate_structure`,
before truncation. -/
def rawErrors : List (String × JVal) → List SErr
  | [] => []
  | (k, v) :: rest =>
    (match v with
     | JVal.str _ => []
     | JVal.nonString => [SErr.valueNotString k]) ++
    (if keyHasRootMarker k then [] else [SErr.badFormat k]) ++ rawErrors rest

/-- `LocalizationParser.validate_structure`, from the point where the
payload has parsed to a JSON object: accumulate entry errors, truncate past
ten with the marker, return `(len(errors) == 0, errors)`. -/
def validate_structure (m : List (String × JVal)) : Bool × List SErr :=
  let errors := rawErrors m
  let errors2 := if 10 < errors.length then errors.take 10 ++ [SErr.truncMarker] else errors
  (errors2.isEmpty, errors2)

/-- `LocalizationParser.load_file`, from the point where the payload has
parsed to an ordered key-value list: build `parsed_data` by dict insertion
of `parse_entry` per entry. -/
def load_file (raw : List (String × String)) : List (String × ParsedEntry) :=
  raw.foldl (fun acc p => dictInsert acc p.1 (parse_entry p.1 p.2)) []

/-- `export_file` from `main.py` (the dictionary-building part between the
dialogs and the JSON dump): pass one copies every original key in order,
using the current-language translation when present and non-empty
(Python truthiness) and the original text otherwise; pass two appends
translated keys absent from the original set when they have a non-empty
current-language value. -/
def export_file (loc : List (String × ParsedEntry))
    (translated : List (String × List (String × String))) (lang : String) :
    List (String × String) :=
  let step1 := loc.foldl (fun acc p =>
    let tt : Option String :=
      match dictGet? translated p.1 with
      | some lm => dictGet? lm lang
      | none => none
    dictInsert acc p.1
      (match tt with
       | some t => if t = "" then p.2.text else t
       | none => p.2.text)) []
  translated.foldl (fun acc p =>
    if acc.any (fun q => q.1 = p.1) then acc
    else
      match dictGet? p.2 lang with
      | some t => if t = "" then acc else dictInsert acc p.1 t
      | none => acc) step1

/- ### Helper lemmas -/

/-- `get_cache_key` is `md5HexStr` of the joined content. -/
theorem get_cache_key_eq (t l s c : String) :
    get_cache_key t l s c = md5HexStr (cacheContent t l s c) := rfl

/-- On the path where `translated` is non-blank and carries no error
sentinel, `validate_translation` returns the warning list and score built
from the three soft checks. -/
theorem validate_translation_pos (original translated : String)
    (h1 : pyStrip translated ≠ "") (h2 : strStartsWith translated "[ERROR:" = false) :
    validate_translation original translated =
      ⟨true,
        (if extract_placeholders original ≠ extract_placeholders translated then
          [VWarning.placeholderMismatch (extract_placeholders original)
            (extract_placeholders translated)] else []) ++
        (if badRatio original translated then
          [VWarning.lengthRatio (ratioQ original translated)] else []) ++
        (if lowerStr original = lowerStr translated then [VWarning.unchanged] else []),
        [],
        max 0 ((if extract_placeholders original ≠ extract_placeholders translated then
            1 - 2/10 else 1) -
          (if badRatio original translated then 1/10 else 0) -
          (if lowerStr original = lowerStr translated then 3/10 else 0))⟩ := by
  unfold validate_translation
  rw [if_neg h1]
  simp [h2]

/-- A format error for key `k` is accumulated exactly when some entry has
key `k` and `k` carries no root marker. -/
theorem badFormat_mem_rawErrors (m : List (String × JVal)) (k : String) :
    SErr.badFormat k ∈ rawErrors m ↔ (∃ v, (k, v) ∈ m) ∧ keyHasRootMarker k = false := by
  induction m with
  | nil => simp [rawErrors]
  | cons p m ih =>
    obtain ⟨k', v'⟩ := p
    cases v' <;> by_cases hk : keyHasRootMarker k' <;>
      simp [rawErrors, hk, ih] <;> aesop

/-- The truncation marker is never one of the accumulated entry errors. -/
theorem truncMarker_not_mem_rawErrors (m : List (String × JVal)) :
    SErr.truncMarker ∉ rawErrors m := by
  induction m with
  | nil => simp [rawErrors]
  | cons p m ih =>
    obtain ⟨k', v'⟩ := p
    cases v' <;> by_cases hk : keyHasRootMarker k' <;> simp [rawErrors, hk, ih]

/-- `getLast?` produces a member of the list. -/
theorem mem_of_getLast?_eq_some {α : Type} {l : List α} {a : α}
    (h : l.getLast? = some a) : a ∈ l := by
  induction l with
  | nil => simp at h
  | cons b l ih =>
    cases l with
    | nil => simp at h; simp [h]
    | cons c l =>
      rw [List.getLast?_cons_cons] at h
      exact List.mem_cons_of_mem b (ih h)

/- ### C1: cache-key fingerprinting -/

/-- C1 (counterexample): the claim that `get_cache_key` returns different
fingerprints whenever any one of the four arguments differs is false: the
two distinct tuples `("a|b", "c", "x", "y")` and `("a", "b|c", "x", "y")`
join to the same pipe-separated content, hence hash identically. -/
theorem c1_counterexample :
    get_cache_key "a|b" "c" "x" "y" = get_cache_key "a" "b|c" "x" "y" ∧
    (("a|b", "c", "x", "y") : String × String × String × String) ≠ ("a", "b|c", "x", "y") := by
  constructor
  · rw [get_cache_key_eq, get_cache_key_eq]
    exact congrArg md5HexStr (by decide)
  · decide

/-- C1 (amended): `get_cache_key` is a function of the pipe-joined content
`text|target_language|style|context`: identical tuples always produce the
identical fingerprint, and two tuples whose joined contents coincide (the
separator is not escaped, so fields containing `|` can collide) also
produce the identical fingerprint; distinctness for differing tuples is
therefore not guaranteed. -/
theorem c1_theorem (t1 l1 s1 c1 t2 l2 s2 c2 : String)
    (h : cacheContent t1 l1 s1 c1 = cacheContent t2 l2 s2 c2) :
    get_cache_key t1 l1 s1 c1 = get_cache_key t2 l2 s2 c2 := by
  rw [get_cache_key_eq, get_cache_key_eq, h]

/-- C1 witness: the amended theorem applied at a concrete colliding pair. -/
theorem c1_witness : get_cache_key "x|y" "z" "s" "k" = get_cache_key "x" "y|z" "s" "k" :=
  c1_theorem ("x|y") ("z") ("s") ("k") ("x") ("y|z") ("s") ("k") (by decide)

/- ### C2: placeholder validation -/

/-- C2 (counterexample): the claim that the placeholder comparison is over
sets of tokens, order-insensitive, is false: `"{a} {b}"` versus
`"{b} {a}"` have equal placeholder sets (the extracted lists are
permutations of each other), yet `validate_translation` emits the mismatch
warning and deducts 0.2, because the code compares the `re.findall` lists
with `!=`. -/
theorem c2_counterexample :
    extract_placeholders "{a} {b}" = ["{a}", "{b}"] ∧
    extract_placeholders "{b} {a}" = ["{b}", "{a}"] ∧
    (extract_placeholders "{a} {b}").Perm (extract_placeholders "{b} {a}") ∧
    (validate_translation "{a} {b}" "{b} {a}").warnings =
      [VWarning.placeholderMismatch ["{a}", "{b}"] ["{b}", "{a}"]] ∧
    (validate_translation "{a} {b}" "{b} {a}").score = 4/5 := by
  have hop : extract_placeholders "{a} {b}" = ["{a}", "{b}"] := by decide
  have htp : extract_placeholders "{b} {a}" = ["{b}", "{a}"] := by decide
  have hne : (["{a}", "{b}"] : List String) ≠ ["{b}", "{a}"] := by decide
  have hbr : ¬ badRatio "{a} {b}" "{b} {a}" := by
    unfold badRatio ratioQ
    rw [show ("{a} {b}" : String).length = 7 from by decide,
      show ("{b} {a}" : String).length = 7 from by decide]
    norm_num
  have hlo : lowerStr "{a} {b}" ≠ lowerStr "{b} {a}" := by decide
  have hrec := validate_translation_pos "{a} {b}" "{b} {a}" (by decide) (by decide)
  refine ⟨hop, htp, by decide, ?_, ?_⟩
  · rw [hrec]
    dsimp only
    rw [hop, htp, if_pos hne, if_neg hbr, if_neg hlo]
    simp
  · rw [hrec]
    dsimp only
    rw [hop, htp, if_pos hne, if_neg hbr, if_neg hlo]
    have h45 : ((1 : ℚ) - 2/10) - 0 - 0 = 4/5 := by norm_num
    rw [h45]
    exact max_eq_right (by norm_num)

/-- C2 (amended): for every non-blank `translated` not starting with
`[ERROR:`, the placeholder-mismatch warning is emitted, and 0.2 deducted
from the score, exactly when the ordered list of `{...}` matches of
`original` differs from that of `translated` (list comparison: order- and
multiplicity-sensitive, not a set comparison); in particular
`"Click {button} now"` versus `"Click now"` yields the mismatch warning,
score 0.8 (at most 0.8), and `is_valid` true. -/
theorem c2_theorem (original translated : String)
    (h1 : pyStrip translated ≠ "")
    (h2 : strStartsWith translated "[ERROR:" = false) :
    (VWarning.placeholderMismatch (extract_placeholders original) (extract_placeholders translated) ∈
        (validate_translation original translated).warnings ↔
      extract_placeholders original ≠ extract_placeholders translated) ∧
    (validate_translation original translated).score =
      max 0 (1 -
        (if extract_placeholders original ≠ extract_placeholders translated then 2/10 else 0) -
        (if badRatio original translated then 1/10 else 0) -
        (if lowerStr original = lowerStr translated then 3/10 else 0)) ∧
    (validate_translation original translated).is_valid = true ∧
    (validate_translation "Click {button} now" "Click now").warnings =
      [VWarning.placeholderMismatch ["{button}"] []] ∧
    (validate_translation "Click {button} now" "Click now").score = 4/5 ∧
    (validate_translation "Click {button} now" "Click now").score ≤ 4/5 ∧
    (validate_translation "Click {button} now" "Click now").is_valid = true := by
  have hA : extract_placeholders "Click {button} now" = ["{button}"] := by decide
  have hB : extract_placeholders "Click now" = [] := by decide
  have hAB : (["{button}"] : List String) ≠ [] := by decide
  have hbrC : ¬ badRatio "Click {button} now" "Click now" := by
    unfold badRatio ratioQ
    rw [show ("Click {button} now" : String).length = 18 from by decide,
      show ("Click now" : String).length = 9 from by decide]
    norm_num
  have hloC : lowerStr "Click {button} now" ≠ lowerStr "Click now" := by decide
  have hrecC := validate_translation_pos "Click {button} now" "Click now" (by decide) (by decide)
  have h45 : ((1 : ℚ) - 2/10) - 0 - 0 = 4/5 := by norm_num
  have hscoreC : (validate_translation "Click {button} now" "Click now").score = 4/5 := by
    rw [hrecC]
    dsimp only
    rw [hA, hB, if_pos hAB, if_neg hbrC, if_neg hloC, h45]
    exact max_eq_right (by norm_num)
  rw [validate_translation_pos original translated h1 h2]
  refine ⟨?_, ?_, by simp, ?_, hscoreC, le_of_eq hscoreC, ?_⟩
  · by_cases hm : extract_placeholders original = extract_placeholders translated <;>
      by_cases hr : badRatio original translated <;>
      by_cases hu : lowerStr original = lowerStr translated <;>
      simp [hm, hr, hu]
  · by_cases hm : extract_placeholders original = extract_placeholders translated <;>
      by_cases hr : badRatio original translated <;>
      by_cases hu : lowerStr original = lowerStr translated <;>
      simp [hm, hr, hu]
  · rw [hrecC]
    dsimp only
    rw [hA, hB, if_pos hAB, if_neg hbrC, if_neg hloC]
    simp
  · rw [hrecC]

/-- C2 witness: the amended theorem applied at the concrete scenario of the
claim. -/
theorem c2_witness :
    (VWarning.placeholderMismatch (extract_placeholders "Click {button} now")
        (extract_placeholders "Click now") ∈
      (validate_translation "Click {button} now" "Click now").warnings ↔
      extract_placeholders "Click {button} now" ≠ extract_placeholders "Click now") :=
  ( c2_theorem ("Click {button} now") ("Click now") (by decide) (by decide) ).1

/- ### C3: structure validation root markers -/

/-- C3 (counterexample): the claim that keys containing the marker
`dialog(` get no format error is false: the key `dialog(a).text` contains
`dialog(` yet `validate_structure` reports the format error for it, because
the code requires the markers with a leading apostrophe. -/
theorem c3_counterexample :
    strContains "dialog(a).text" "dialog(" = true ∧
    validate_structure [("dialog(a).text", JVal.str "x")] =
      (false, [SErr.badFormat "dialog(a).text"]) := by
  constructor
  · decide
  · decide

/-- C3 (amended): for every key of the mapping, the "doesn't match expected
format" error is accumulated exactly when the key contains none of the
three apostrophe-prefixed root markers `'dialog(`, `'topic(`,
`'globalVariable(`; and whenever at most ten errors accumulate the returned
error list is exactly the accumulated one, so the same equivalence holds of
the returned list. -/
theorem c3_theorem (m : List (String × JVal)) (k : String) (v : JVal)
    (hk : (k, v) ∈ m) :
    (SErr.badFormat k ∈ rawErrors m ↔ keyHasRootMarker k = false) ∧
    ((rawErrors m).length ≤ 10 → (validate_structure m).2 = rawErrors m) := by
  constructor
  · rw [badFormat_mem_rawErrors]
    constructor
    · exact fun h => h.2
    · exact fun h => ⟨⟨v, hk⟩, h⟩
  · intro hlen
    unfold validate_structure
    simp only
    rw [if_neg (by omega)]

/-- C3 witness: the amended theorem applied at a concrete two-entry
mapping. -/
theorem c3_witness :
    (SErr.badFormat "bad" ∈
        rawErrors [(apos ++ "dialog(x).y", JVal.str "a"), ("bad", JVal.str "b")] ↔
      keyHasRootMarker "bad" = false) := by
  exact ( c3_theorem [(apos ++ "dialog(x).y", JVal.str "a"), ("bad", JVal.str "b")]
    ("bad") (JVal.str "b") (by decide) ).1

/- ### C6: UI-component extraction precedence -/

/-- C6: `extract_ui_component` agrees, on every key, with the six-rule
first-applicable-wins precedence stated by the specification
(`uiComponentSpec`): the ordered literal component markers, then the
global-variable marker, then the two case-insensitive knowledge rules, then
the dialog-root `DisplayName` rule, then `Unknown`. -/
theorem c6_theorem : ∀ key : String, extract_ui_component key = uiComponentSpec key := by
  intro key
  unfold extract_ui_component uiComponentSpec uiComponents
  cases h1 : strContains key ".Card." <;>
    cases h2 : strContains key ".Activity." <;>
      cases h3 : strContains key ".Prompt." <;>
        cases h4 : strContains key ".Entity." <;>
          cases h5 : strContains key ".Intent." <;>
            cases h6 : strContains key ".Dialog." <;>
              simp [List.find?, h1, h2, h3, h4, h5, h6]

/- ### C7: error-list capping -/

/-- C7: for every input mapping, the returned error list holds at most ten
entry errors; the trailing truncation marker is its last element exactly
when more than ten errors accumulated; and the returned flag is true
exactly when the returned list is empty. -/
theorem c7_theorem : ∀ m : List (String × JVal),
    (((validate_structure m).2.filter (fun e => e ≠ SErr.truncMarker)).length ≤ 10) ∧
    ((validate_structure m).2.getLast? = some SErr.truncMarker ↔ 10 < (rawErrors m).length) ∧
    ((validate_structure m).1 = true ↔ (validate_structure m).2 = []) := by
  intro m
  unfold validate_structure
  simp only
  by_cases h : 10 < (rawErrors m).length
  · rw [if_pos h]
    refine ⟨?_, ?_, ?_⟩
    · rw [List.filter_append]
      have htake : ((rawErrors m).take 10).filter (fun e => e ≠ SErr.truncMarker) =
          (rawErrors m).take 10 := by
        rw [List.filter_eq_self]
        intro a ha
        have : a ∈ rawErrors m := (List.take_sublist 10 (rawErrors m)).mem ha
        simp
        intro hEq
        exact truncMarker_not_mem_rawErrors m (hEq ▸ this)
      rw [htake]
      simp [List.length_take]
    · simp [List.getLast?_concat, h]
    · constructor
      · intro hEmp
        simp [List.isEmpty_iff] at hEmp
      · intro hEmp
        exact absurd hEmp (by simp)
  · rw [if_neg h]
    refine ⟨?_, ?_, ?_⟩
    · have hfil : (rawErrors m).filter (fun e => e ≠ SErr.truncMarker) = rawErrors m := by
        rw [List.filter_eq_self]
        intro a ha
        simp
        intro hEq
        exact truncMarker_not_mem_rawErrors m (hEq ▸ ha)
      rw [hfil]
      omega
    · constructor
      · intro hLast
        exact absurd (mem_of_getLast?_eq_some hLast) (truncMarker_not_mem_rawErrors m)
      · intro hGt
        exact absurd hGt h
    · simp [List.isEmpty_iff]

/- ### C9: end-to-end concrete scenario -/

/-- C9 (counterexample): the claimed classification of
`'dialog(topic.Billing).Card.1.text` is false on the code: the topic
capture `[^'\.]+` does not exclude `)`, so the captured topic is
`Billing)`, not `Billing`. -/
theorem c9_counterexample :
    (parse_entry (apos ++ "dialog(topic.Billing).Card.1.text") "Pay now").topic ≠ "Billing" := by
  decide

/-- C9 (amended): for the input key `'dialog(topic.Billing).Card.1.text`
with value `"Pay now"`, classification yields topic `"Billing)"` (the
capture keeps the closing parenthesis), ui_component `"Card"`, element_type
`"text"`, and description `"Topic: Billing) | Component: Card"`; and with
no backend configured and an empty cache, translating `"Pay now"` to
Spanish in formal style returns `"[FORMAL] Pay now [SPANISH]"`. -/
theorem c9_theorem :
    (parse_entry (apos ++ "dialog(topic.Billing).Card.1.text") "Pay now").topic = "Billing)" ∧
    (parse_entry (apos ++ "dialog(topic.Billing).Card.1.text") "Pay now").ui_component = "Card" ∧
    (parse_entry (apos ++ "dialog(topic.Billing).Card.1.text") "Pay now").element_type = "text" ∧
    (parse_entry (apos ++ "dialog(topic.Billing).Card.1.text") "Pay now").description =
      "Topic: Billing) | Component: Card" ∧
    (parse_entry (apos ++ "dialog(topic.Billing).Card.1.text") "Pay now").text = "Pay now" ∧
    (translate ⟨[], none⟩ "Pay now" "Spanish" "formal" "" 3).result =
      "[FORMAL] Pay now [SPANISH]" := by
  refine ⟨by decide, by decide, by decide, by decide, by decide, by decide⟩


/- ### C4: load/export round trip -/

/-- Inserting a key absent from the dict appends the pair. -/
theorem dictInsert_fresh {α : Type} (d : List (String × α)) (k : String) (v : α)
    (h : d.any (fun p => p.1 = k) = false) : dictInsert d k v = d ++ [(k, v)] := by
  unfold dictInsert
  simp [h]

/-- Folding dict insertion over entries with pairwise-distinct keys, all
absent from the accumulator, appends the transformed entries in order. -/
theorem foldl_dictInsert_fresh {α β : Type} (f : String × α → β) :
    ∀ (l : List (String × α)) (acc : List (String × β)),
      (l.map Prod.fst).Nodup →
      (∀ k ∈ l.map Prod.fst, acc.any (fun p => p.1 = k) = false) →
      l.foldl (fun a p => dictInsert a p.1 (f p)) acc = acc ++ l.map (fun p => (p.1, f p)) := by
  intro l
  induction l with
  | nil => intro acc _ _; simp
  | cons p l ih =>
    intro acc hnd hfresh
    simp only [List.foldl_cons]
    rw [dictInsert_fresh acc p.1 (f p) (hfresh p.1 (by simp))]
    rw [ih (acc ++ [(p.1, f p)]) (by simpa using (List.nodup_cons.mp (by simpa using hnd)).2) ?_]
    · simp
    · intro k hk
      rw [List.any_append]
      have h1 : acc.any (fun q => q.1 = k) = false := hfresh k (by simp [hk])
      have h2 : p.1 ≠ k := by
        intro hEq
        exact (List.nodup_cons.mp (by simpa using hnd)).1 (hEq ▸ hk)
      simp [h1, h2]

/-- C4: exporting immediately after loading, with no translations
performed, reproduces the original mapping exactly: same keys, same
insertion order, same string values. -/
theorem c4_theorem (raw : List (String × String)) (lang : String)
    (h : (raw.map Prod.fst).Nodup) :
    export_file (load_file raw) [] lang = raw := by
  unfold load_file export_file
  simp only [List.foldl_nil]
  rw [foldl_dictInsert_fresh (fun p => parse_entry p.1 p.2) raw [] h (fun k _ => rfl)]
  simp only [List.nil_append]
  show (raw.map fun p => (p.1, parse_entry p.1 p.2)).foldl
      (fun a q => dictInsert a q.1 ((fun q : String × ParsedEntry => q.2.text) q)) [] = raw
  rw [foldl_dictInsert_fresh (fun q : String × ParsedEntry => q.2.text)
      (raw.map fun p => (p.1, parse_entry p.1 p.2)) [] ?_ (fun k _ => rfl)]
  · simp only [List.nil_append, List.map_map]
    have hfun : ((fun q : String × ParsedEntry => (q.1, q.2.text)) ∘
        (fun p : String × String => (p.1, parse_entry p.1 p.2))) = id := by
      funext p
      rfl
    rw [hfun, List.map_id]
  · have hkeys : ((raw.map fun p => (p.1, parse_entry p.1 p.2)).map Prod.fst) = raw.map Prod.fst := by
      rw [List.map_map]
      rfl
    rw [hkeys]
    exact h

/-- C4 witness: the round trip at a concrete two-entry file. -/
theorem c4_witness :
    (([("k1", "v1"), ("k2", "v2")] : List (String × String)).map Prod.fst).Nodup ∧
    export_file (load_file [("k1", "v1"), ("k2", "v2")]) [] "Spanish" =
      [("k1", "v1"), ("k2", "v2")] :=
  ⟨by decide, c4_theorem [("k1", "v1"), ("k2", "v2")] "Spanish" (by decide)⟩

/- ### C8: topic extraction and cleanup -/

/-- An ASCII uppercase letter is not an ASCII lowercase letter. -/
theorem not_lowerAZ_of_upperAZ {c : Char} (h : isUpperAZ c = true) : isLowerAZ c = false := by
  unfold isUpperAZ at h
  unfold isLowerAZ
  simp only [Bool.and_eq_true, decide_eq_true_eq] at h
  simp only [Bool.and_eq_false_iff, decide_eq_false_iff_not]
  omega

/-- The one-pass non-overlapping camel-case substitution of the source is
the pairwise space insertion of the specification. -/
theorem camelSub_eq_insert : ∀ l : List Char, camelSub l = insertCamelSpaces l
  | [] => rfl
  | [c] => rfl
  | a :: b :: rest => by
    cases h : isLowerAZ a && isUpperAZ b
    · show camelSub (a :: b :: rest) = insertCamelSpaces (a :: b :: rest)
      unfold camelSub insertCamelSpaces
      simp only [h, Bool.false_eq_true, if_false]
      exact congrArg (a :: ·) (camelSub_eq_insert (b :: rest))
    · have hb : isLowerAZ b = false := by
        have h' := h
        simp only [Bool.and_eq_true] at h'
        exact not_lowerAZ_of_upperAZ h'.2
      have htail : insertCamelSpaces (b :: rest) = b :: insertCamelSpaces rest := by
        cases rest with
        | nil => rfl
        | cons c cs =>
          show (if isLowerAZ b && isUpperAZ c then b :: ' ' :: insertCamelSpaces (c :: cs)
            else b :: insertCamelSpaces (c :: cs)) = b :: insertCamelSpaces (c :: cs)
          simp [hb]
      show camelSub (a :: b :: rest) = insertCamelSpaces (a :: b :: rest)
      unfold camelSub insertCamelSpaces
      simp only [h, if_true]
      rw [htail, camelSub_eq_insert rest]

/-- The per-word branch of the source equals the per-word rule of the
specification. -/
theorem formatWord_eq_specWord (w : List Char) : formatWord w = specWord w := by
  unfold formatWord specWord
  cases ha : acronyms.contains (w.map Char.toLower)
  · simp only [ha, Bool.false_eq_true, if_false]
    match w with
    | [] => simp [pyCapitalize]
    | [c] => simp
    | c :: d :: ds =>
      rw [if_pos (by simp only [List.length_cons]; omega),
        if_neg (by simp only [List.length_cons]; omega)]
  · simp [ha]

/-- The full captured-name cleanup of the source equals the cleanup the
specification describes. -/
theorem cleanup_eq (cap : List Char) : format_topic_name (replUH cap) = specCleanup cap := by
  unfold format_topic_name specCleanup
  rw [camelSub_eq_insert, show formatWord = specWord from funext formatWord_eq_specWord]

/-- `takeWhile` over an append where every left element passes and the
right part starts with a failing element (or is empty) yields the left
part. -/
theorem takeWhile_append_all (p : Char → Bool) :
    ∀ (l₁ l₂ : List Char), (∀ c ∈ l₁, p c = true) → l₂.takeWhile p = [] →
      (l₁ ++ l₂).takeWhile p = l₁ := by
  intro l₁
  induction l₁ with
  | nil => intro l₂ _ h2; simpa using h2
  | cons c l ih =>
    intro l₂ h1 h2
    simp [List.takeWhile_cons, h1 c (by simp), ih l₂ (fun d hd => h1 d (by simp [hd])) h2]

/-- C8 (counterexample): the claim that every key containing `topic.Foo`
classifies to topic `Foo` is false: the key `topic.Foo)` contains
`topic.Foo`, but the greedy capture `[^'\.]+` also swallows the `)`, so the
topic is `Foo)`. -/
theorem c8_counterexample :
    strContains "topic.Foo)" "topic.Foo" = true ∧
    extract_topic "topic.Foo)" = "Foo)" ∧ ("Foo)" : String) ≠ "Foo" := by
  refine ⟨by decide, by decide, by decide⟩

/-- C8 (amended): topic extraction matches the specification's ordered
patterns, cleanup pipeline (underscores/hyphens to spaces, pairwise
camel-case splitting, title-casing with the acronym and single-character
exceptions) and fallbacks on every key; and every key of the shape
`topic.<name><suffix>`, where `<name>` is the entire maximal run of
characters other than period and apostrophe after `topic.` (the suffix
therefore being empty or starting with a period or apostrophe), classifies
to the cleanup of `<name>` — the capture is the whole run, so e.g.
`topic.Foo)` yields `Foo)`, not `Foo`. -/
theorem c8_theorem :
    (∀ key : String, extract_topic key = specExtractTopic key) ∧
    (∀ name suffix : List Char, name ≠ [] →
      (∀ c ∈ name, notDotApos c = true) →
      (∀ c ∈ suffix.take 1, notDotApos c = false) →
      extract_topic (String.mk ('t' :: 'o' :: 'p' :: 'i' :: 'c' :: '.' :: (name ++ suffix))) =
        specCleanup name) := by
  constructor
  · intro key
    unfold extract_topic specExtractTopic
    cases h1 : reSearch p1At key.data with
    | some cap => simp [cleanup_eq]
    | none =>
      cases h2 : reSearch p2At key.data with
      | some cap => simp [cleanup_eq]
      | none =>
        cases h3 : reSearch p3At key.data with
        | some cap => simp [cleanup_eq]
        | none => rfl
  · intro name suffix h1 h2 h3
    have hcap : (name ++ suffix).takeWhile notDotApos = name := by
      apply takeWhile_append_all notDotApos name suffix h2
      cases suffix with
      | nil => rfl
      | cons s ss =>
        simp [List.takeWhile_cons, h3 s (by simp)]
    have hat : p1At ('t' :: 'o' :: 'p' :: 'i' :: 'c' :: '.' :: (name ++ suffix)) = some name := by
      show (if (name ++ suffix).takeWhile notDotApos = [] then none
        else some ((name ++ suffix).takeWhile notDotApos)) = some name
      rw [hcap, if_neg h1]
    have hsearch : reSearch p1At
        ((String.mk ('t' :: 'o' :: 'p' :: 'i' :: 'c' :: '.' :: (name ++ suffix))).data) =
        some name := by
      show (match p1At ('t' :: 'o' :: 'p' :: 'i' :: 'c' :: '.' :: (name ++ suffix)) with
        | some cap => some cap
        | none => reSearch p1At ('o' :: 'p' :: 'i' :: 'c' :: '.' :: (name ++ suffix))) = some name
      rw [hat]
    unfold extract_topic
    rw [hsearch]
    exact cleanup_eq name

/-- C8 witness: the amended theorem applied at a concrete camel-case
topic key. -/
theorem c8_witness :
    extract_topic (String.mk ('t' :: 'o' :: 'p' :: 'i' :: 'c' :: '.' ::
      ("orderStatus".data ++ ['.', 'x']))) = specCleanup "orderStatus".data :=
  c8_theorem.2 ("orderStatus".data) ['.', 'x'] (by decide) (by decide) (by decide)


/- ### C5: retry, backoff and caching in `translate` -/

/-- The error sentinel built from any failure detail starts with
`[ERROR:`. -/
theorem strStartsWith_error_sentinel (e : String) :
    strStartsWith ("[ERROR: Translation failed: " ++ e ++ "]") "[ERROR:" = true := by
  unfold strStartsWith
  rw [List.isPrefixOf_iff_prefix]
  have hdata : ("[ERROR: Translation failed: " ++ e ++ "]").data =
      "[ERROR: Translation failed: ".data ++ (e.data ++ "]".data) := by
    rw [String.data_append, String.data_append, List.append_assoc]
  rw [hdata]
  exact List.IsPrefix.trans (by decide)
    (List.prefix_append "[ERROR: Translation failed: ".data (e.data ++ "]".data))

/-- Looking up a key right after inserting it finds the inserted value. -/
theorem dictGet?_insert {α : Type} (d : List (String × α)) (k : String) (v : α) :
    dictGet? (dictInsert d k v) k = some v := by
  induction d with
  | nil => simp [dictInsert, dictGet?, List.find?]
  | cons p rest ih =>
    unfold dictInsert
    by_cases hp : p.1 = k
    · rw [if_pos (by simp [List.any_cons, hp])]
      simp [dictGet?, List.find?, hp]
    · cases hr : rest.any (fun q => q.1 = k)
      · rw [if_neg (by simp [List.any_cons, hp, hr])]
        have ih' := ih
        rw [dictInsert, if_neg (by simp [hr])] at ih'
        simp only [List.cons_append]
        unfold dictGet? at ih' ⊢
        simp only [List.find?, decide_eq_false hp]
        exact ih'
      · rw [if_pos (by simp [List.any_cons, hr])]
        have ih' := ih
        rw [dictInsert, if_pos (by simp [hr])] at ih'
        simp only [List.map_cons]
        rw [if_neg hp]
        unfold dictGet? at ih' ⊢
        simp only [List.find?, decide_eq_false hp]
        exact ih'

/-- If the backend fails on all remaining attempts, the retry loop returns
an `[ERROR:`-prefixed sentinel and sleeps `2^attempt` seconds after every
attempt but the last. -/
theorem attemptLoop_all_fail (backend : Nat → Except String String) (key : String)
    (svc : Service) :
    ∀ (r a : Nat), (∀ i, i < r → ∃ msg, backend (a + i) = Except.error msg) →
      strStartsWith (attemptLoop backend key svc a r).result "[ERROR:" = true ∧
      (attemptLoop backend key svc a r).sleeps =
        (List.range (r - 1)).map (fun j => 2 ^ (a + j)) := by
  intro r
  induction r with
  | zero =>
    intro a _
    constructor
    · show strStartsWith "[ERROR: Translation failed after retries]" "[ERROR:" = true
      decide
    · rfl
  | succ r ih =>
    intro a hfail
    obtain ⟨msg, hmsg⟩ := hfail 0 (Nat.succ_pos r)
    rw [Nat.add_zero] at hmsg
    have hstep : attemptLoop backend key svc a (r + 1) =
        (match backend a with
         | Except.ok resp =>
           let t := processResponse resp
           ⟨t, { svc with cache := dictInsert svc.cache key t }, []⟩
         | Except.error e =>
           if r = 0 then
             ⟨"[ERROR: Translation failed: " ++ e ++ "]", svc, []⟩
           else
             let out := attemptLoop backend key svc (a + 1) r
             ⟨out.result, out.svc, 2 ^ a :: out.sleeps⟩) := rfl
    rw [hstep, hmsg]
    dsimp only
    by_cases hr : r = 0
    · subst hr
      rw [if_pos rfl]
      exact ⟨strStartsWith_error_sentinel msg, rfl⟩
    · rw [if_neg hr]
      have hshift : ∀ i, i < r → ∃ m, backend (a + 1 + i) = Except.error m := by
        intro i hi
        obtain ⟨m, hm⟩ := hfail (i + 1) (by omega)
        exact ⟨m, by rw [← hm]; congr 1; omega⟩
      obtain ⟨ih1, ih2⟩ := ih (a + 1) hshift
      refine ⟨ih1, ?_⟩
      show 2 ^ a :: (attemptLoop backend key svc (a + 1) r).sleeps =
        (List.range (r + 1 - 1)).map (fun j => 2 ^ (a + j))
      rw [ih2]
      have hr' : r = (r - 1) + 1 := by omega
      rw [Nat.add_sub_cancel]
      conv_rhs => rw [hr']
      rw [List.range_succ_eq_map, List.map_cons, List.map_map]
      rw [Nat.add_zero]
      congr 1
      apply List.map_congr_left
      intro j _
      show 2 ^ (a + 1 + j) = 2 ^ (a + Nat.succ j)
      congr 1
      omega

/-- C5: with a cache miss and a configured backend: (A) if the backend
fails on every one of the `max_retries` attempts, `translate` returns a
string beginning with `[ERROR:` (it does not raise) after sleeping
`2^attempt` seconds between attempts (1s, 2s, 4s, ...); (B) if the backend
fails twice and succeeds on the third attempt with `max_retries = 3`,
`translate` returns the successful result, the cache is populated with it,
and the sleeps were 1s then 2s. -/
theorem c5_theorem (svcA svcB : Service) (bkA bkB : Nat → Except String String) (mrA : Nat)
    (text lang style ctx v : String)
    (hA1 : dictGet? svcA.cache (get_cache_key text lang style ctx) = none)
    (hA2 : svcA.client = some bkA)
    (hAf : ∀ i, i < mrA → ∃ msg, bkA i = Except.error msg)
    (hB1 : dictGet? svcB.cache (get_cache_key text lang style ctx) = none)
    (hB2 : svcB.client = some bkB)
    (hBf0 : ∃ e, bkB 0 = Except.error e)
    (hBf1 : ∃ e, bkB 1 = Except.error e)
    (hBok : bkB 2 = Except.ok v)
    (hv : processResponse v = v) :
    strStartsWith (translate svcA text lang style ctx mrA).result "[ERROR:" = true ∧
    (translate svcA text lang style ctx mrA).sleeps =
      (List.range (mrA - 1)).map (fun j => 2 ^ j) ∧
    (translate svcB text lang style ctx 3).result = v ∧
    dictGet? (translate svcB text lang style ctx 3).svc.cache
      (get_cache_key text lang style ctx) = some v ∧
    (translate svcB text lang style ctx 3).sleeps = [1, 2] := by
  have htrA : translate svcA text lang style ctx mrA =
      attemptLoop bkA (get_cache_key text lang style ctx) svcA 0 mrA := by
    simp only [translate, hA1, hA2]
  have htrB : translate svcB text lang style ctx 3 =
      attemptLoop bkB (get_cache_key text lang style ctx) svcB 0 3 := by
    simp only [translate, hB1, hB2]
  obtain ⟨e0, he0⟩ := hBf0
  obtain ⟨e1, he1⟩ := hBf1
  have hloopB : attemptLoop bkB (get_cache_key text lang style ctx) svcB 0 3 =
      ⟨v, ⟨dictInsert svcB.cache (get_cache_key text lang style ctx) v, svcB.client⟩, [1, 2]⟩ := by
    have h2 : attemptLoop bkB (get_cache_key text lang style ctx) svcB 2 1 =
        ⟨processResponse v, ⟨dictInsert svcB.cache (get_cache_key text lang style ctx) (processResponse v), svcB.client⟩, []⟩ := by
      show (match bkB 2 with
        | Except.ok resp =>
          (⟨processResponse resp, ⟨dictInsert svcB.cache (get_cache_key text lang style ctx) (processResponse resp), svcB.client⟩, []⟩ : TransResult)
        | Except.error e =>
          if (0 : Nat) = 0 then
            ⟨"[ERROR: Translation failed: " ++ e ++ "]", svcB, []⟩
          else
            ⟨(attemptLoop bkB (get_cache_key text lang style ctx) svcB 3 0).result,
             (attemptLoop bkB (get_cache_key text lang style ctx) svcB 3 0).svc,
             2 ^ 2 :: (attemptLoop bkB (get_cache_key text lang style ctx) svcB 3 0).sleeps⟩) =
        ⟨processResponse v, ⟨dictInsert svcB.cache (get_cache_key text lang style ctx) (processResponse v), svcB.client⟩, []⟩
      rw [hBok]
    have h1 : attemptLoop bkB (get_cache_key text lang style ctx) svcB 1 2 =
        ⟨(attemptLoop bkB (get_cache_key text lang style ctx) svcB 2 1).result,
         (attemptLoop bkB (get_cache_key text lang style ctx) svcB 2 1).svc,
         2 ^ 1 :: (attemptLoop bkB (get_cache_key text lang style ctx) svcB 2 1).sleeps⟩ := by
      show (match bkB 1 with
        | Except.ok resp =>
          (⟨processResponse resp, ⟨dictInsert svcB.cache (get_cache_key text lang style ctx) (processResponse resp), svcB.client⟩, []⟩ : TransResult)
        | Except.error e =>
          if (1 : Nat) = 0 then
            ⟨"[ERROR: Translation failed: " ++ e ++ "]", svcB, []⟩
          else
            ⟨(attemptLoop bkB (get_cache_key text lang style ctx) svcB 2 1).result,
             (attemptLoop bkB (get_cache_key text lang style ctx) svcB 2 1).svc,
             2 ^ 1 :: (attemptLoop bkB (get_cache_key text lang style ctx) svcB 2 1).sleeps⟩) = _
      rw [he1]
      dsimp only
      rw [if_neg (by omega)]
    have h0 : attemptLoop bkB (get_cache_key text lang style ctx) svcB 0 3 =
        ⟨(attemptLoop bkB (get_cache_key text lang style ctx) svcB 1 2).result,
         (attemptLoop bkB (get_cache_key text lang style ctx) svcB 1 2).svc,
         2 ^ 0 :: (attemptLoop bkB (get_cache_key text lang style ctx) svcB 1 2).sleeps⟩ := by
      show (match bkB 0 with
        | Except.ok resp =>
          (⟨processResponse resp, ⟨dictInsert svcB.cache (get_cache_key text lang style ctx) (processResponse resp), svcB.client⟩, []⟩ : TransResult)
        | Except.error e =>
          if (2 : Nat) = 0 then
            ⟨"[ERROR: Translation failed: " ++ e ++ "]", svcB, []⟩
          else
            ⟨(attemptLoop bkB (get_cache_key text lang style ctx) svcB 1 2).result,
             (attemptLoop bkB (get_cache_key text lang style ctx) svcB 1 2).svc,
             2 ^ 0 :: (attemptLoop bkB (get_cache_key text lang style ctx) svcB 1 2).sleeps⟩) = _
      rw [he0]
      dsimp only
      rw [if_neg (by omega)]
    rw [h0, h1, h2, hv]
    rfl
  obtain ⟨hfA1, hfA2⟩ := attemptLoop_all_fail bkA (get_cache_key text lang style ctx) svcA mrA 0
    (by simpa using hAf)
  refine ⟨by rw [htrA]; exact hfA1, ?_, ?_, ?_, ?_⟩
  · rw [htrA, hfA2]
    apply List.map_congr_left
    intro j _
    rw [Nat.zero_add]
  · rw [htrB, hloopB]
  · rw [htrB, hloopB]
    exact dictGet?_insert svcB.cache (get_cache_key text lang style ctx) v
  · rw [htrB, hloopB]

/-- C5 witness: the theorem applied with an always-failing backend
(part A) and a fails-twice-then-succeeds backend (part B) over an empty
cache. -/
theorem c5_witness :
    strStartsWith (translate ⟨[], some fun _ => Except.error "boom"⟩
      "Pay now" "Spanish" "formal" "" 3).result "[ERROR:" = true ∧
    (translate ⟨[], some fun _ => Except.error "boom"⟩
      "Pay now" "Spanish" "formal" "" 3).sleeps = (List.range 2).map (fun j => 2 ^ j) ∧
    (translate ⟨[], some fun i => if i < 2 then Except.error "boom" else Except.ok "hola"⟩
      "Pay now" "Spanish" "formal" "" 3).result = "hola" ∧
    dictGet? (translate ⟨[], some fun i => if i < 2 then Except.error "boom" else Except.ok "hola"⟩
      "Pay now" "Spanish" "formal" "" 3).svc.cache
      (get_cache_key "Pay now" "Spanish" "formal" "") = some "hola" ∧
    (translate ⟨[], some fun i => if i < 2 then Except.error "boom" else Except.ok "hola"⟩
      "Pay now" "Spanish" "formal" "" 3).sleeps = [1, 2] :=
  c5_theorem ⟨[], some fun _ => Except.error "boom"⟩
    ⟨[], some fun i => if i < 2 then Except.error "boom" else Except.ok "hola"⟩
    (fun _ => Except.error "boom")
    (fun i => if i < 2 then Except.error "boom" else Except.ok "hola")
    3 "Pay now" "Spanish" "formal" "" "hola"
    rfl rfl (fun i _ => ⟨"boom", rfl⟩) rfl rfl
    ⟨"boom", rfl⟩ ⟨"boom", rfl⟩ rfl (by decide)


/- ### C10: batch translation plumbing -/

/-- The batch loop yields one result and one progress invocation per
zipped pair. -/
theorem batchRun_lengths (lang style : String) :
    ∀ (pairs : List (String × String)) (svc : Service) (i total : Nat),
      (batchRun svc pairs lang style i total).1.length = pairs.length ∧
      (batchRun svc pairs lang style i total).2.1.length = pairs.length := by
  intro pairs
  induction pairs with
  | nil => intro svc i total; exact ⟨rfl, rfl⟩
  | cons q rest ih =>
    intro svc i total
    obtain ⟨t, c⟩ := q
    simp only [batchRun]
    constructor
    · simp [(ih (translate svc t lang style c 3).svc (i + 1) total).1]
    · simp [(ih (translate svc t lang style c 3).svc (i + 1) total).2]

/-- The `j`-th progress invocation of the batch loop carries the one-based
index, the total, the `j`-th source text and the `j`-th result. -/
theorem batchRun_progress (lang style : String) :
    ∀ (pairs : List (String × String)) (svc : Service) (i total j : Nat)
      (p : String × String) (r : String),
      pairs[j]? = some p →
      ((batchRun svc pairs lang style i total).1)[j]? = some r →
      ((batchRun svc pairs lang style i total).2.1)[j]? = some (i + j + 1, total, p.1, r) := by
  intro pairs
  induction pairs with
  | nil => intro svc i total j p r hp _; simp at hp
  | cons q rest ih =>
    intro svc i total j p r hp hr
    obtain ⟨t, c⟩ := q
    simp only [batchRun] at hr ⊢
    cases j with
    | zero =>
      rw [List.getElem?_cons_zero] at hp hr ⊢
      obtain rfl : (t, c) = p := Option.some.inj hp
      obtain rfl : (translate svc t lang style c 3).result = r := Option.some.inj hr
      simp
    | succ j =>
      rw [List.getElem?_cons_succ] at hp hr ⊢
      have hstep := ih (translate svc t lang style c 3).svc (i + 1) total j p r hp hr
      rw [show i + (j + 1) + 1 = i + 1 + j + 1 from by omega]
      exact hstep

/-- Positionwise characterisation of `zip` lookups. -/
theorem zip_getElem?_some {α β : Type} :
    ∀ (l₁ : List α) (l₂ : List β) (j : Nat) (a : α) (b : β),
      l₁[j]? = some a → l₂[j]? = some b → (l₁.zip l₂)[j]? = some (a, b) := by
  intro l₁
  induction l₁ with
  | nil => intro l₂ j a b h _; simp at h
  | cons x xs ih =>
    intro l₂ j a b h1 h2
    cases l₂ with
    | nil => simp at h2
    | cons y ys =>
      cases j with
      | zero =>
        rw [List.getElem?_cons_zero] at h1 h2
        obtain rfl : x = a := Option.some.inj h1
        obtain rfl : y = b := Option.some.inj h2
        simp [List.zip_cons_cons]
      | succ j =>
        rw [List.getElem?_cons_succ] at h1 h2
        simp only [List.zip_cons_cons, List.getElem?_cons_succ]
        exact ih ys j a b h1 h2

/-- C10: with an explicitly supplied `contexts` list shorter than `texts`,
`translate_batch` returns only `len(contexts)` results, pairing by
position and silently dropping the trailing texts; with `contexts` omitted
or of equal length, the result list has the same length and order as
`texts` and the progress callback fires once per item with
`(index + 1, total, source_text, result_text)`. -/
theorem c10_theorem (svc : Service) (texts : List String) (lang style : String)
    (cs : List String) :
    ((translate_batch svc texts lang style (some cs)).1.length = min texts.length cs.length) ∧
    (cs.length < texts.length →
      (translate_batch svc texts lang style (some cs)).1.length = cs.length) ∧
    ((translate_batch svc texts lang style none).1.length = texts.length ∧
      (translate_batch svc texts lang style none).2.1.length = texts.length ∧
      ∀ i t r, texts[i]? = some t →
        ((translate_batch svc texts lang style none).1)[i]? = some r →
        ((translate_batch svc texts lang style none).2.1)[i]? =
          some (i + 1, texts.length, t, r)) ∧
    (cs.length = texts.length →
      ∀ i t r, texts[i]? = some t →
        ((translate_batch svc texts lang style (some cs)).1)[i]? = some r →
        ((translate_batch svc texts lang style (some cs)).2.1)[i]? =
          some (i + 1, texts.length, t, r)) := by
  have hsome : translate_batch svc texts lang style (some cs) =
      batchRun svc (texts.zip cs) lang style 0 texts.length := rfl
  have hnone : translate_batch svc texts lang style none =
      batchRun svc (texts.zip (List.replicate texts.length "")) lang style 0 texts.length := rfl
  have hlenS := batchRun_lengths lang style (texts.zip cs) svc 0 texts.length
  have hlenN := batchRun_lengths lang style (texts.zip (List.replicate texts.length ""))
    svc 0 texts.length
  refine ⟨?_, ?_, ⟨?_, ?_, ?_⟩, ?_⟩
  · rw [hsome, hlenS.1, List.length_zip texts cs]
  · intro hlt
    rw [hsome, hlenS.1, List.length_zip texts cs]
    omega
  · rw [hnone, hlenN.1, List.length_zip, List.length_replicate]
    omega
  · rw [hnone, hlenN.2, List.length_zip, List.length_replicate]
    omega
  · intro i t r ht hr
    rw [hnone] at hr ⊢
    have hi : i < texts.length := (List.getElem?_eq_some.mp ht).1
    have hc : (List.replicate texts.length ("" : String))[i]? = some "" := by
      simp [List.getElem?_replicate, hi]
    have hp := zip_getElem?_some texts (List.replicate texts.length "") i t "" ht hc
    have hout := batchRun_progress lang style (texts.zip (List.replicate texts.length ""))
      svc 0 texts.length i (t, "") r hp hr
    simpa using hout
  · intro hEq i t r ht hr
    rw [hsome] at hr ⊢
    have hi : i < texts.length := (List.getElem?_eq_some.mp ht).1
    have hi' : i < cs.length := by omega
    obtain ⟨b, hb⟩ : ∃ b, cs[i]? = some b := by
      rw [List.getElem?_eq_getElem hi']
      exact ⟨_, rfl⟩
    have hp := zip_getElem?_some texts cs i t b ht hb
    have hout := batchRun_progress lang style (texts.zip cs) svc 0 texts.length i (t, b) r hp hr
    simpa using hout

/-- C10 witness: the theorem applied at a concrete one-element batch with
an equal-length contexts list, backed by the mock translator. -/
theorem c10_witness :
    ((translate_batch ⟨[], none⟩ ["a"] "Spanish" "formal" (some ["c"])).2.1)[0]? =
      some (0 + 1, (["a"] : List String).length, "a", "[FORMAL] a [SPANISH]") :=
  ( c10_theorem ⟨[], none⟩ ["a"] "Spanish" "formal" ["c"] ).2.2.2 rfl 0 "a"
    "[FORMAL] a [SPANISH]" rfl (by decide)

end CopilotTranslator
